import Mathlib

/-!
Verification of the type-and-serialization core contract of a column-oriented
database engine, as declared in `src/dbms/include/DB/DataTypes/IDataType.h`.

The header under `src/` contains the polymorphic interface `IDataType`: pure
virtual declarations plus two default method bodies (`isNumeric`, which
returns `false`, and `getSizeOfField`, which throws a `NOT_IMPLEMENTED`
exception).  We embed the header faithfully at two levels:

* the declaration table of the interface itself (method names, constness,
  pure-virtual flags, parameter lists with their C++ default arguments),
  transcribed from the header text; and
* the two default method bodies that the header does define.

The concrete serialization behaviour (the implementations of the virtual
methods for each concrete type, and the shared bulk-column loops) is not part
of `src/`; following the specification, representative reference types
(a fixed-width `UInt64` and a variable-length `String`, plus an
`Array(UInt64)` composite) and the generic bulk loops are modelled from the
spec and verified against the contract's stated properties.
-/

namespace DB

/-! ### Error taxonomy (spec section 7, and `ErrorCodes::NOT_IMPLEMENTED` in the header) -/

/-- Error kinds raised to callers, per the spec's taxonomy:
`TypeMismatch`, `TruncatedInput`, `MalformedEncoding`, `NotImplemented`
(the last mirrors `ErrorCodes::NOT_IMPLEMENTED` used in the header). -/
inductive ErrKind where
  | TypeMismatch
  | TruncatedInput
  | MalformedEncoding
  | NotImplemented
deriving DecidableEq, Repr

/-- Embeds `DB::Exception`: an error kind together with a message string. -/
structure DBException where
  kind : ErrKind
  message : String
deriving DecidableEq, Repr

/-! ### Scalar values -/

/-- Embeds the dynamically-tagged scalar value (`DB::Field`): a closed variant
over null, unsigned/signed integers, byte strings and composites.  A byte
string is a list of byte values; a composite holds a list of fields.
(The floating-point alternative is part of the variant in the engine but is
not exercised by any representative type modelled here.) -/
inductive Field where
  | null
  | uint (n : Nat)
  | int (i : Int)
  | string (s : List Nat)
  | array (xs : List Field)
deriving Repr

/-! ### The declaration table of `IDataType`, transcribed from the header -/

/-- One formal parameter of a method of `IDataType`, as written in the header:
its name, its C++ type, whether it is passed as a reference to const, and its
default argument if the header declares one. -/
structure ParamSig where
  pname : String
  ptype : String
  isConstRef : Bool
  defaultVal : Option String
deriving DecidableEq, Repr

/-- One method of the `IDataType` interface as declared in the header: name,
whether the method is declared `const`, whether it is pure virtual (`= 0`)
or carries a default body, and its parameter list. -/
structure MethodSig where
  mname : String
  isConst : Bool
  isPureVirtual : Bool
  params : List ParamSig
deriving DecidableEq, Repr

namespace IDataType

/-- Transcription of every member function declared in `class IDataType`
(`IDataType.h`, lines 25-87), in declaration order; the destructor is the only
member left out, since constness does not apply to it. -/
def methods : List MethodSig :=
  [ { mname := "getName", isConst := true, isPureVirtual := true, params := [] },
    { mname := "isNumeric", isConst := true, isPureVirtual := false, params := [] },
    { mname := "clone", isConst := true, isPureVirtual := true, params := [] },
    { mname := "serializeBinary", isConst := true, isPureVirtual := true,
      params := [ { pname := "field", ptype := "const Field &", isConstRef := true, defaultVal := none },
                  { pname := "ostr", ptype := "WriteBuffer &", isConstRef := false, defaultVal := none } ] },
    { mname := "deserializeBinary", isConst := true, isPureVirtual := true,
      params := [ { pname := "field", ptype := "Field &", isConstRef := false, defaultVal := none },
                  { pname := "istr", ptype := "ReadBuffer &", isConstRef := false, defaultVal := none } ] },
    { mname := "serializeBinary", isConst := true, isPureVirtual := true,
      params := [ { pname := "column", ptype := "const IColumn &", isConstRef := true, defaultVal := none },
                  { pname := "ostr", ptype := "WriteBuffer &", isConstRef := false, defaultVal := none },
                  { pname := "callback", ptype := "WriteCallback", isConstRef := false,
                    defaultVal := some "WriteCallback()" } ] },
    { mname := "deserializeBinary", isConst := true, isPureVirtual := true,
      params := [ { pname := "column", ptype := "IColumn &", isConstRef := false, defaultVal := none },
                  { pname := "istr", ptype := "ReadBuffer &", isConstRef := false, defaultVal := none },
                  { pname := "limit", ptype := "size_t", isConstRef := false, defaultVal := none } ] },
    { mname := "serializeText", isConst := true, isPureVirtual := true,
      params := [ { pname := "field", ptype := "const Field &", isConstRef := true, defaultVal := none },
                  { pname := "ostr", ptype := "WriteBuffer &", isConstRef := false, defaultVal := none } ] },
    { mname := "deserializeText", isConst := true, isPureVirtual := true,
      params := [ { pname := "field", ptype := "Field &", isConstRef := false, defaultVal := none },
                  { pname := "istr", ptype := "ReadBuffer &", isConstRef := false, defaultVal := none } ] },
    { mname := "serializeTextEscaped", isConst := true, isPureVirtual := true,
      params := [ { pname := "field", ptype := "const Field &", isConstRef := true, defaultVal := none },
                  { pname := "ostr", ptype := "WriteBuffer &", isConstRef := false, defaultVal := none } ] },
    { mname := "deserializeTextEscaped", isConst := true, isPureVirtual := true,
      params := [ { pname := "field", ptype := "Field &", isConstRef := false, defaultVal := none },
                  { pname := "istr", ptype := "ReadBuffer &", isConstRef := false, defaultVal := none } ] },
    { mname := "serializeTextQuoted", isConst := true, isPureVirtual := true,
      params := [ { pname := "field", ptype := "const Field &", isConstRef := true, defaultVal := none },
                  { pname := "ostr", ptype := "WriteBuffer &", isConstRef := false, defaultVal := none },
                  { pname := "compatible", ptype := "bool", isConstRef := false,
                    defaultVal := some "false" } ] },
    { mname := "deserializeTextQuoted", isConst := true, isPureVirtual := true,
      params := [ { pname := "field", ptype := "Field &", isConstRef := false, defaultVal := none },
                  { pname := "istr", ptype := "ReadBuffer &", isConstRef := false, defaultVal := none },
                  { pname := "compatible", ptype := "bool", isConstRef := false,
                    defaultVal := some "false" } ] },
    { mname := "createColumn", isConst := true, isPureVirtual := true, params := [] },
    { mname := "createConstColumn", isConst := true, isPureVirtual := true,
      params := [ { pname := "size", ptype := "size_t", isConstRef := false, defaultVal := none },
                  { pname := "field", ptype := "const Field &", isConstRef := true, defaultVal := none } ] },
    { mname := "getDefault", isConst := true, isPureVirtual := true, params := [] },
    { mname := "getSizeOfField", isConst := true, isPureVirtual := false, params := [] } ]

/-- Embeds the default body of `IDataType::isNumeric` (header line 28):
it simply returns `false`. -/
def isNumericDefault : Bool := false

/-- Embeds the default body of `IDataType::getSizeOfField` (header lines
84-87): it throws an exception with code `ErrorCodes::NOT_IMPLEMENTED` whose
message names the type, and never returns a value. -/
def getSizeOfFieldDefault (name : String) : Except DBException Nat :=
  .error { kind := .NotImplemented,
           message := "getSizeOfField() method is not implemented for data type " ++ name }

end IDataType

/-! ### Little-endian byte helpers for the representative fixed-width codec -/

/-- Write `n` in little-endian base 256 using exactly `w` bytes
(truncating to `n % 256 ^ w`, as a machine store of width `w` would). -/
def natToLE : Nat → Nat → List Nat
  | 0, _ => []
  | w + 1, n => n % 256 :: natToLE w (n / 256)

/-- Read a little-endian base-256 number from a list of bytes (each byte is
taken modulo 256, as a byte read would). -/
def leToNat (bs : List Nat) : Nat :=
  bs.foldr (fun b acc => b % 256 + 256 * acc) 0

/-! ### Representative fixed-width integer type, modelled from the spec -/

namespace DataTypeUInt64

/-- Modelled from the spec: the values valid for the fixed-width 64-bit
unsigned integer reference type are exactly the unsigned-integer fields whose
value fits in 64 bits. -/
def valid : Field → Bool
  | .uint n => decide (n < 2 ^ 64)
  | _ => false

/-- Modelled from the spec: the type's stable unique name. -/
def getName : String := "UInt64"

/-- Modelled from the spec: the fixed-width integer type is numeric. -/
def isNumeric : Bool := true

/-- Modelled from the spec (binary serialization of one scalar value, the
per-value `serializeBinary` overload missing from `src/`): the canonical
binary encoding of a `UInt64` is its 8-byte little-endian store; a field of
any other tag fails with `TypeMismatch`. -/
def serializeBinary : Field → Except DBException (List Nat)
  | .uint n => .ok (natToLE 8 n)
  | _ => .error { kind := .TypeMismatch, message := "cannot serialize field as UInt64" }

/-- Modelled from the spec (binary deserialization of one scalar value, the
per-value `deserializeBinary` overload missing from `src/`): consume exactly
8 bytes and return the decoded value together with the rest of the stream;
fail with `TruncatedInput` when the stream ends early. -/
def deserializeBinary (input : List Nat) : Except DBException (Field × List Nat) :=
  if 8 ≤ input.length then
    .ok (.uint (leToNat (input.take 8)), input.drop 8)
  else
    .error { kind := .TruncatedInput, message := "unexpected end of stream reading UInt64" }

/-- Modelled from the spec: the canonical default value of the integer type
is zero. -/
def getDefault : Field := .uint 0

/-- Modelled from the spec (concrete scenario of section 8): the fixed-width
integer type overrides `getSizeOfField` and returns the fixed constant 8. -/
def getSizeOfField : Except DBException Nat := .ok 8

end DataTypeUInt64

/-! ### Representative variable-length string type, modelled from the spec -/

namespace DataTypeString

/-- Modelled from the spec: the values valid for the variable-length string
reference type are the byte-string fields whose bytes each fit in one byte
and whose length fits in 64 bits. -/
def valid : Field → Bool
  | .string s => decide (s.length < 2 ^ 64) && s.all (fun b => decide (b < 256))
  | _ => false

/-- Modelled from the spec: the type's stable unique name. -/
def getName : String := "String"

/-- Modelled from the spec: the string type is not numeric, so `isNumeric`
falls back to the default of the header. -/
def isNumeric : Bool := IDataType.isNumericDefault

/-- Modelled from the spec (binary serialization of one scalar value, missing
from `src/`): a length-prefixed byte string — an 8-byte little-endian length
followed by the raw bytes; other tags fail with `TypeMismatch`. -/
def serializeBinary : Field → Except DBException (List Nat)
  | .string s => .ok (natToLE 8 s.length ++ s)
  | _ => .error { kind := .TypeMismatch, message := "cannot serialize field as String" }

/-- Modelled from the spec (binary deserialization of one scalar value,
missing from `src/`): read the 8-byte length prefix, then that many bytes;
fail with `TruncatedInput` when the stream ends early in either part. -/
def deserializeBinary (input : List Nat) : Except DBException (Field × List Nat) :=
  if 8 ≤ input.length then
    let n := leToNat (input.take 8)
    let rest := input.drop 8
    if n ≤ rest.length then
      .ok (.string (rest.take n), rest.drop n)
    else
      .error { kind := .TruncatedInput, message := "unexpected end of stream reading String body" }
  else
    .error { kind := .TruncatedInput, message := "unexpected end of stream reading String length" }

/-- Modelled from the spec: the canonical default value of the string type is
the empty string. -/
def getDefault : Field := .string []

/-- Modelled from the spec: the variable-length string type has no meaningful
fixed per-value size, so `getSizeOfField` is not overridden and falls back to
the default of the header, which fails with `NotImplemented`. -/
def getSizeOfField : Except DBException Nat := IDataType.getSizeOfFieldDefault getName

end DataTypeString

/-! ### Bulk column serialization and the write-callback protocol

The shared bulk-column loops are core contract code whose implementation is
not under `src/`; they are modelled from the spec (section 4.2 and the header
comment on the column overload of `serializeBinary`, lines 40-48). -/

/-- Modelled from the spec: bulk column serialization without a callback —
every element's binary encoding is written in row order; an element the
per-value encoder rejects fails the whole call. -/
def serializeColumnNoCallback (encode : Field → Except DBException (List Nat)) :
    List Field → Except DBException (List Nat)
  | [] => .ok []
  | f :: rest =>
    match encode f with
    | .error e => .error e
    | .ok bs =>
      match serializeColumnNoCallback encode rest with
      | .error e => .error e
      | .ok out => .ok (bs ++ out)

/-- Modelled from the spec: bulk column serialization interleaved with the
write-callback protocol.  The callback is a zero-argument stateful function,
modelled as a step `s ↦ (next trigger index, new state)`.  The loop carries
the absolute index `i` of the next row to encode, the current trigger `trig`,
and the callback state; immediately before encoding row `i` the callback
fires exactly when `i` equals the current trigger, and the index it returns
becomes the new trigger.  The result is the bytes written, the list of rows
at which the callback fired (in firing order), and the final callback
state. -/
def serializeColumnWithCallback {σ : Type} (encode : Field → Except DBException (List Nat))
    (step : σ → Nat × σ) :
    List Field → Nat → Nat → σ → Except DBException (List Nat × List Nat × σ)
  | [], _, _, s => .ok ([], [], s)
  | f :: rest, i, trig, s =>
    if i = trig then
      let ts := step s
      match encode f with
      | .error e => .error e
      | .ok bs =>
        match serializeColumnWithCallback encode step rest (i + 1) ts.1 ts.2 with
        | .error e => .error e
        | .ok (out, fired, s2) => .ok (bs ++ out, i :: fired, s2)
    else
      match encode f with
      | .error e => .error e
      | .ok bs =>
        match serializeColumnWithCallback encode step rest (i + 1) trig s with
        | .error e => .error e
        | .ok (out, fired, s2) => .ok (bs ++ out, fired, s2)

/-- Modelled from the spec: the column overload of `serializeBinary`.  The
header declares `WriteCallback callback = WriteCallback()`: passing no
callback (the empty `boost::function`) means a purely sequential encode with
no callback invocations; a supplied callback runs the protocol starting with
trigger index 0 (the callback fires before row 0). -/
def serializeColumnBinary {σ : Type} (encode : Field → Except DBException (List Nat))
    (cb : Option (σ → Nat × σ)) (col : List Field) (s : σ) :
    Except DBException (List Nat × List Nat × σ) :=
  match cb with
  | none =>
    match serializeColumnNoCallback encode col with
    | .error e => .error e
    | .ok out => .ok (out, [], s)
  | some step => serializeColumnWithCallback encode step col 0 0 s

/-- Modelled from the spec: a caller-side write callback whose state is the
list of trigger indices it has yet to return, in order; when the list is
exhausted it returns `bound` (one past the last row), meaning that no further
trigger is requested. -/
def listCallback (bound : Nat) : List Nat → Nat × List Nat
  | [] => (bound, [])
  | r :: rs => (r, rs)

/-- Modelled from the spec: the column overload of `deserializeBinary` —
append at most `limit` decoded values to `col`, stopping cleanly (no error)
when the stream is exhausted before a row starts, and stopping with the
per-value decoder's error, appending nothing of the failing row, when a
decode fails.  Returns the column, the unconsumed stream, and the error if
any. -/
def deserializeColumnBinary (decode : List Nat → Except DBException (Field × List Nat)) :
    List Field → List Nat → Nat → List Field × List Nat × Option DBException
  | col, input, 0 => (col, input, none)
  | col, input, limit + 1 =>
    if input = [] then
      (col, input, none)
    else
      match decode input with
      | .error e => (col, input, some e)
      | .ok (f, remaining) => deserializeColumnBinary decode (col ++ [f]) remaining limit

/-! ### Text serialization, modelled from the spec

Decimal text for the integer type; escape/unescape of control and separator
bytes for the string type (tab 9, newline 10 and backslash 92 become the
two-byte sequences backslash-t, backslash-n, backslash-backslash). -/

/-- Modelled from the spec: decimal text of an unsigned integer, most
significant digit first, as ASCII digit bytes; zero renders as the single
byte 48. -/
def natToDecimal (n : Nat) : List Nat :=
  if n = 0 then [48] else (Nat.digits 10 n).reverse.map (fun d => d + 48)

/-- Predicate on bytes: an ASCII decimal digit. -/
def isDigitByte (b : Nat) : Bool := decide (48 ≤ b) && decide (b ≤ 57)

/-- Modelled from the spec: the number denoted by a list of ASCII digit
bytes, most significant first. -/
def decimalToNat (l : List Nat) : Nat :=
  Nat.ofDigits 10 ((l.map (fun b => b - 48)).reverse)

/-- Modelled from the spec: escaping rule for one byte of a string value in
escaped-text mode — tab, newline and backslash become two-byte escape
sequences, every other byte stands for itself. -/
def escapeByte (b : Nat) : List Nat :=
  if b = 9 then [92, 116]
  else if b = 10 then [92, 110]
  else if b = 92 then [92, 92]
  else [b]

/-- Modelled from the spec: escaped-text rendering of a whole byte string. -/
def escapeBytes : List Nat → List Nat
  | [] => []
  | b :: rest => escapeByte b ++ escapeBytes rest

/-- Modelled from the spec: one step of reading escaped text.  `ok none`
means the value ends here (end of stream, or an unescaped separator which is
left in the stream); `ok (some (d, rest))` yields the next decoded byte and
the stream after it; an incomplete or unknown escape sequence fails with
`MalformedEncoding`. -/
def readEscapedStep (l : List Nat) : Except DBException (Option (Nat × List Nat)) :=
  match l with
  | [] => .ok none
  | b :: rest =>
    if b = 9 ∨ b = 10 then .ok none
    else if b = 92 then
      match rest with
      | [] => .error { kind := .MalformedEncoding, message := "stray backslash at end of escaped text" }
      | c :: rs =>
        if c = 116 then .ok (some (9, rs))
        else if c = 110 then .ok (some (10, rs))
        else if c = 92 then .ok (some (92, rs))
        else .error { kind := .MalformedEncoding, message := "unknown escape sequence" }
    else .ok (some (b, rest))

/-- Modelled from the spec: the escaped-text reading loop.  The fuel bounds
the number of decoded bytes; it is instantiated with the stream length,
which can never be the limiting factor because every decoded byte consumes
at least one byte of the stream. -/
def unescapeAux : Nat → List Nat → Except DBException (List Nat × List Nat)
  | 0, l => .ok ([], l)
  | fuel + 1, l =>
    match readEscapedStep l with
    | .error e => .error e
    | .ok none => .ok ([], l)
    | .ok (some (d, rest)) =>
      match unescapeAux fuel rest with
      | .error e => .error e
      | .ok (s, r) => .ok (d :: s, r)

/-- Modelled from the spec: read an escaped string value — consume bytes up
to the first unescaped separator (tab or newline) or the end of the stream,
undoing the escape sequences. -/
def unescapeBytes (l : List Nat) : Except DBException (List Nat × List Nat) :=
  unescapeAux l.length l

namespace DataTypeUInt64

/-- Modelled from the spec (raw text serialization of one scalar value,
missing from `src/`): the decimal text of the number. -/
def serializeText : Field → Except DBException (List Nat)
  | .uint n => .ok (natToDecimal n)
  | _ => .error { kind := .TypeMismatch, message := "cannot serialize field as UInt64" }

/-- Modelled from the spec (raw text deserialization, missing from `src/`):
consume the longest digit prefix of the stream; an empty prefix fails with
`MalformedEncoding`; the value is taken modulo 2^64 as a 64-bit store
would. -/
def deserializeText (input : List Nat) : Except DBException (Field × List Nat) :=
  let ds := input.takeWhile isDigitByte
  if ds = [] then
    .error { kind := .MalformedEncoding, message := "cannot parse UInt64 from text" }
  else
    .ok (.uint (decimalToNat ds % 2 ^ 64), input.dropWhile isDigitByte)

/-- Modelled from the spec: numbers contain no separator or control bytes,
so escaped-text output coincides with raw text output. -/
def serializeTextEscaped : Field → Except DBException (List Nat) := serializeText

/-- Modelled from the spec: escaped-text parse of a number is the raw text
parse. -/
def deserializeTextEscaped : List Nat → Except DBException (Field × List Nat) := deserializeText

end DataTypeUInt64

namespace DataTypeString

/-- Modelled from the spec (escaped text serialization of one scalar string,
missing from `src/`): the escaping rule applied to the value's bytes. -/
def serializeTextEscaped : Field → Except DBException (List Nat)
  | .string s => .ok (escapeBytes s)
  | _ => .error { kind := .TypeMismatch, message := "cannot serialize field as String" }

/-- Modelled from the spec (escaped text deserialization, missing from
`src/`): undo the escaping up to the first unescaped separator or the end of
the stream. -/
def deserializeTextEscaped (input : List Nat) : Except DBException (Field × List Nat) :=
  match unescapeBytes input with
  | .error e => .error e
  | .ok (s, r) => .ok (.string s, r)

end DataTypeString

/-! ### Quoted/literal text, modelled from the spec

A quoted string literal is the value's bytes wrapped in single quotes
(byte 39) with quotes, backslashes and control bytes escaped.  Per the header
comment on `serializeTextQuoted` (lines 64-68), when `compatible = true` an
array or tuple value is additionally written inside quotes, so that the dump
can be loaded into another system with those values as plain strings. -/

/-- Modelled from the spec: escaping rule for one byte inside a quoted
literal — the single quote is escaped in addition to the escaped-text
rule. -/
def escapeQuotedByte (b : Nat) : List Nat :=
  if b = 39 then [92, 39] else escapeByte b

/-- Modelled from the spec: quoted-literal escaping of a whole byte
string. -/
def escapeQuotedBytes : List Nat → List Nat
  | [] => []
  | b :: rest => escapeQuotedByte b ++ escapeQuotedBytes rest

/-- Modelled from the spec: a quoted string literal — the escaped bytes
wrapped in single quotes. -/
def quoteBytes (s : List Nat) : List Nat := 39 :: escapeQuotedBytes s ++ [39]

/-- Modelled from the spec: one step of reading the inside of a quoted
literal.  `ok (inl rest)` means the closing quote was found, with `rest` the
stream after it; `ok (inr (d, rest))` yields the next decoded content byte;
a truncated or unknown escape fails. -/
def readQuotedStep (l : List Nat) : Except DBException (Sum (List Nat) (Nat × List Nat)) :=
  match l with
  | [] => .error { kind := .TruncatedInput, message := "unterminated quoted literal" }
  | b :: rest =>
    if b = 39 then .ok (.inl rest)
    else if b = 92 then
      match rest with
      | [] => .error { kind := .TruncatedInput, message := "stray backslash in quoted literal" }
      | c :: rs =>
        if c = 116 then .ok (.inr (9, rs))
        else if c = 110 then .ok (.inr (10, rs))
        else if c = 92 then .ok (.inr (92, rs))
        else if c = 39 then .ok (.inr (39, rs))
        else .error { kind := .MalformedEncoding, message := "unknown escape sequence in quoted literal" }
    else .ok (.inr (b, rest))

/-- Modelled from the spec: the quoted-literal reading loop; the fuel bounds
the number of content bytes and is instantiated from the stream length. -/
def unquoteAux : Nat → List Nat → Except DBException (List Nat × List Nat)
  | 0, _ => .error { kind := .TruncatedInput, message := "unterminated quoted literal" }
  | fuel + 1, l =>
    match readQuotedStep l with
    | .error e => .error e
    | .ok (.inl rest) => .ok ([], rest)
    | .ok (.inr (d, rest)) =>
      match unquoteAux fuel rest with
      | .error e => .error e
      | .ok (s, r) => .ok (d :: s, r)

/-- Modelled from the spec: read a quoted string literal — an opening quote,
escaped content, a closing quote; returns the content bytes and the stream
after the closing quote. -/
def readQuotedString (l : List Nat) : Except DBException (List Nat × List Nat) :=
  match l with
  | [] => .error { kind := .TruncatedInput, message := "unexpected end of stream reading quoted literal" }
  | b :: rest =>
    if b = 39 then unquoteAux (rest.length + 1) rest
    else .error { kind := .MalformedEncoding, message := "quoted literal must begin with a quote" }

namespace DataTypeUInt64

/-- Modelled from the spec: a number is itself a valid literal, so
quoted-text output is its decimal text; the compatibility flag concerns only
composite types and has no effect here. -/
def serializeTextQuoted (f : Field) (_compatible : Bool) : Except DBException (List Nat) :=
  serializeText f

/-- Modelled from the spec: quoted-text parse of a number is the decimal
parse, for either flag value. -/
def deserializeTextQuoted (input : List Nat) (_compatible : Bool) :
    Except DBException (Field × List Nat) :=
  deserializeText input

end DataTypeUInt64

namespace DataTypeString

/-- Modelled from the spec: quoted-text output of a string value is the
quoted literal; the compatibility flag concerns only composite types. -/
def serializeTextQuoted : Field → Bool → Except DBException (List Nat)
  | .string s, _ => .ok (quoteBytes s)
  | _, _ => .error { kind := .TypeMismatch, message := "cannot serialize field as String" }

/-- Modelled from the spec: quoted-text parse of a string value reads one
quoted literal, for either flag value. -/
def deserializeTextQuoted (input : List Nat) (_compatible : Bool) :
    Except DBException (Field × List Nat) :=
  match readQuotedString input with
  | .error e => .error e
  | .ok (s, r) => .ok (.string s, r)

end DataTypeString

/-- Modelled from the spec: the element texts of an array literal, each
element rendered by the element type's quoted serialization, separated by
commas (byte 44). -/
def serializeArrayItems : List Field → Except DBException (List Nat)
  | [] => .ok []
  | [f] => DataTypeUInt64.serializeTextQuoted f false
  | f :: rest =>
    match DataTypeUInt64.serializeTextQuoted f false, serializeArrayItems rest with
    | .error e, _ => .error e
    | .ok _, .error e => .error e
    | .ok t, .ok out => .ok (t ++ 44 :: out)

/-- Modelled from the spec: parse a non-empty comma-separated element list
followed by the closing bracket (byte 93); each element is parsed by the
element type's quoted deserialization.  The fuel bounds the element count
and is instantiated from the stream length. -/
def parseArrayItemsAux : Nat → List Nat → Except DBException (List Field × List Nat)
  | 0, _ => .error { kind := .MalformedEncoding, message := "array literal too long" }
  | fuel + 1, l =>
    match DataTypeUInt64.deserializeTextQuoted l false with
    | .error e => .error e
    | .ok (f, rest) =>
      match rest.head? with
      | none => .error { kind := .TruncatedInput, message := "unterminated array literal" }
      | some d =>
        if d = 93 then .ok ([f], rest.tail)
        else if d = 44 then
          match parseArrayItemsAux fuel rest.tail with
          | .error e => .error e
          | .ok (xs, r) => .ok (f :: xs, r)
        else .error { kind := .MalformedEncoding, message := "expected separator or closing bracket in array literal" }

/-- Modelled from the spec: parse an array literal — an opening bracket
(byte 91), the element list, a closing bracket. -/
def parseArrayBody (l : List Nat) : Except DBException (List Field × List Nat) :=
  match l with
  | [] => .error { kind := .TruncatedInput, message := "unexpected end of stream reading array literal" }
  | b :: rest =>
    if b = 91 then
      match rest.head? with
      | none => .error { kind := .TruncatedInput, message := "unterminated array literal" }
      | some d =>
        if d = 93 then .ok ([], rest.tail)
        else parseArrayItemsAux rest.length rest
    else .error { kind := .MalformedEncoding, message := "array literal must begin with an opening bracket" }

namespace DataTypeArrayUInt64

/-- Modelled from the spec: the composite representative type, an array of
64-bit unsigned integers. -/
def getName : String := "Array(UInt64)"

/-- Modelled from the spec: the valid values are array fields whose elements
are all valid for the element type. -/
def valid : Field → Bool
  | .array xs => xs.all DataTypeUInt64.valid
  | _ => false

/-- Modelled from the spec (header lines 64-68): quoted-text output of an
array is the bracketed element list; with `compatible = true` that text is
additionally written as a quoted string literal, so that the dump can be
re-imported by a consumer treating the value as an opaque string. -/
def serializeTextQuoted (f : Field) (compatible : Bool) : Except DBException (List Nat) :=
  match f with
  | .array xs =>
    match serializeArrayItems xs with
    | .error e => .error e
    | .ok items =>
      if compatible then .ok (quoteBytes (91 :: items ++ [93]))
      else .ok (91 :: items ++ [93])
  | _ => .error { kind := .TypeMismatch, message := "cannot serialize field as Array" }

/-- Modelled from the spec: quoted-text parse of an array — with
`compatible = true` a quoted string literal whose entire content is an array
literal, otherwise the array literal directly. -/
def deserializeTextQuoted (input : List Nat) (compatible : Bool) :
    Except DBException (Field × List Nat) :=
  if compatible then
    match readQuotedString input with
    | .error e => .error e
    | .ok (body, rest) =>
      match parseArrayBody body with
      | .error e => .error e
      | .ok (xs, inner) =>
        if inner = [] then .ok (.array xs, rest)
        else .error { kind := .MalformedEncoding, message := "trailing bytes inside quoted array literal" }
  else
    match parseArrayBody input with
    | .error e => .error e
    | .ok (xs, rest) => .ok (.array xs, rest)

end DataTypeArrayUInt64

theorem natToLE_length (w n : Nat) : (natToLE w n).length = w := by
  induction w generalizing n with
  | zero => rfl
  | succ k ih => simp [natToLE, ih]

theorem leToNat_natToLE (w n : Nat) (h : n < 256 ^ w) : leToNat (natToLE w n) = n := by
  induction w generalizing n with
  | zero =>
    simp only [pow_zero, Nat.lt_one_iff] at h
    subst h; rfl
  | succ k ih =>
    have hdiv : n / 256 < 256 ^ k := by
      rw [Nat.div_lt_iff_lt_mul (by norm_num : 0 < 256)]
      calc n < 256 ^ (k + 1) := h
        _ = 256 ^ k * 256 := by rw [pow_succ]
    simp only [natToLE, leToNat, List.foldr_cons]
    have := ih (n / 256) hdiv
    simp only [leToNat] at this
    rw [this]
    omega

theorem uint64_binary_roundtrip (n : Nat) (h : n < 2 ^ 64) (rest : List Nat) :
    DataTypeUInt64.deserializeBinary (natToLE 8 n ++ rest) = .ok (.uint n, rest) := by
  have hlen : (natToLE 8 n).length = 8 := natToLE_length 8 n
  have h8 : 8 ≤ (natToLE 8 n ++ rest).length := by
    simp [List.length_append, hlen]
  rw [DataTypeUInt64.deserializeBinary, if_pos h8]
  have htake : (natToLE 8 n ++ rest).take 8 = natToLE 8 n := by
    rw [← hlen]; exact List.take_left _ _
  have hdrop : (natToLE 8 n ++ rest).drop 8 = rest := by
    rw [← hlen]; exact List.drop_left _ _
  rw [htake, hdrop, leToNat_natToLE 8 n (by norm_num at h ⊢; omega)]

theorem string_binary_roundtrip (s : List Nat) (h : s.length < 2 ^ 64) (rest : List Nat) :
    DataTypeString.deserializeBinary (natToLE 8 s.length ++ s ++ rest) = .ok (.string s, rest) := by
  have hlen : (natToLE 8 s.length).length = 8 := natToLE_length 8 s.length
  rw [DataTypeString.deserializeBinary]
  rw [List.append_assoc]
  rw [if_pos (by simp [List.length_append, hlen])]
  have htake : (natToLE 8 s.length ++ (s ++ rest)).take 8 = natToLE 8 s.length := by
    rw [← hlen]; exact List.take_left _ _
  have hdrop : (natToLE 8 s.length ++ (s ++ rest)).drop 8 = s ++ rest := by
    rw [← hlen]; exact List.drop_left _ _
  simp only [htake, hdrop]
  rw [leToNat_natToLE 8 s.length (by norm_num at h ⊢; omega)]
  have hle : s.length ≤ (s ++ rest).length := by simp [List.length_append]
  rw [if_pos hle]
  have ht : (s ++ rest).take s.length = s := List.take_left _ _
  have hd : (s ++ rest).drop s.length = rest := List.drop_left _ _
  simp [ht, hd]

/-- C1: for each representative type descriptor and every scalar value valid
for it, serializing the value with the per-value `serializeBinary` and then
reading the produced bytes back with the per-value `deserializeBinary` yields
exactly the original value, with the stream fully consumed. -/
theorem binary_scalar_roundtrip :
    (∀ f, DataTypeUInt64.valid f = true →
      ∃ bytes, DataTypeUInt64.serializeBinary f = .ok bytes ∧
        DataTypeUInt64.deserializeBinary bytes = .ok (f, [])) ∧
    (∀ f, DataTypeString.valid f = true →
      ∃ bytes, DataTypeString.serializeBinary f = .ok bytes ∧
        DataTypeString.deserializeBinary bytes = .ok (f, [])) := by
  constructor
  · intro f hv
    match f with
    | .uint n =>
      refine ⟨natToLE 8 n, rfl, ?_⟩
      have h : n < 2 ^ 64 := by simpa [DataTypeUInt64.valid] using hv
      have h2 := uint64_binary_roundtrip n h []
      rw [List.append_nil] at h2
      exact h2
  · intro f hv
    match f with
    | .string s =>
      refine ⟨natToLE 8 s.length ++ s, rfl, ?_⟩
      have h : s.length < 2 ^ 64 := by
        simp only [DataTypeString.valid, Bool.and_eq_true, decide_eq_true_eq] at hv
        exact hv.1
      have h2 := string_binary_roundtrip s h []
      rw [List.append_nil] at h2
      exact h2

/-- C1 witness: the round trip evaluated at the concrete values 42 (UInt64)
and the three-byte string 1, 9, 255. -/
theorem binary_scalar_roundtrip_witness :
    (∃ bytes, DataTypeUInt64.serializeBinary (.uint 42) = .ok bytes ∧
      DataTypeUInt64.deserializeBinary bytes = .ok (.uint 42, [])) ∧
    (∃ bytes, DataTypeString.serializeBinary (.string [1, 9, 255]) = .ok bytes ∧
      DataTypeString.deserializeBinary bytes = .ok (.string [1, 9, 255], [])) :=
  ⟨binary_scalar_roundtrip.1 (.uint 42) (by decide),
   binary_scalar_roundtrip.2 (.string [1, 9, 255]) (by decide)⟩

theorem serializeColumnNoCallback_ok (encode : Field → Except DBException (List Nat))
    (col : List Field) (h : ∀ f ∈ col, ∃ bs, encode f = .ok bs) :
    ∃ out, serializeColumnNoCallback encode col = .ok out := by
  induction col with
  | nil => exact ⟨[], rfl⟩
  | cons f rest ih =>
    obtain ⟨bs, hbs⟩ := h f (List.mem_cons_self f rest)
    obtain ⟨out, hout⟩ := ih (fun g hg => h g (List.mem_cons_of_mem f hg))
    exact ⟨bs ++ out, by simp [serializeColumnNoCallback, hbs, hout]⟩

theorem serializeColumnWithCallback_no_fire {σ : Type}
    (encode : Field → Except DBException (List Nat)) (step : σ → Nat × σ) :
    ∀ (rows : List Field) (i trig : Nat) (s : σ),
      (∀ f ∈ rows, ∃ bs, encode f = .ok bs) →
      i + rows.length ≤ trig →
      ∃ out, serializeColumnWithCallback encode step rows i trig s = .ok (out, [], s) := by
  intro rows
  induction rows with
  | nil => intro i trig s _ _; exact ⟨[], rfl⟩
  | cons f rest ih =>
    intro i trig s henc hle
    simp only [List.length_cons] at hle
    have hne : i ≠ trig := by omega
    obtain ⟨bs, hbs⟩ := henc f (List.mem_cons_self f rest)
    obtain ⟨out, hout⟩ :=
      ih (i + 1) trig s (fun g hg => henc g (List.mem_cons_of_mem f hg)) (by omega)
    exact ⟨bs ++ out, by simp [serializeColumnWithCallback, if_neg hne, hbs, hout]⟩

theorem serializeColumnWithCallback_fired (encode : Field → Except DBException (List Nat)) :
    ∀ (rows : List Field) (i trig : Nat) (rs : List Nat) (N : Nat),
      (∀ f ∈ rows, ∃ bs, encode f = .ok bs) →
      i + rows.length = N →
      i ≤ trig → trig < N →
      List.Chain' (· < ·) (trig :: rs) →
      (∀ r ∈ rs, r < N) →
      ∃ out, serializeColumnWithCallback encode (listCallback N) rows i trig rs =
        .ok (out, trig :: rs, []) := by
  intro rows
  induction rows with
  | nil =>
    intro i trig rs N _ hN hle hlt _ _
    simp only [List.length_nil, Nat.add_zero] at hN
    omega
  | cons f rest ih =>
    intro i trig rs N henc hN hle hlt hchain hbound
    simp only [List.length_cons] at hN
    obtain ⟨bs, hbs⟩ := henc f (List.mem_cons_self f rest)
    have henc2 := fun g hg => henc g (List.mem_cons_of_mem f hg)
    by_cases hit : i = trig
    · subst hit
      cases rs with
      | nil =>
        obtain ⟨out, hout⟩ :=
          serializeColumnWithCallback_no_fire encode (listCallback N) rest (i + 1) N []
            henc2 (by omega)
        exact ⟨bs ++ out,
          by simp [serializeColumnWithCallback, listCallback, hbs, hout]⟩
      | cons r rs2 =>
        have htr : i < r := (List.chain'_cons.mp hchain).1
        have hchain2 : List.Chain' (· < ·) (r :: rs2) := (List.chain'_cons.mp hchain).2
        have hrN : r < N := hbound r (List.mem_cons_self r rs2)
        obtain ⟨out, hout⟩ :=
          ih (i + 1) r rs2 N henc2 (by omega) (by omega) hrN hchain2
            (fun q hq => hbound q (List.mem_cons_of_mem r hq))
        exact ⟨bs ++ out,
          by simp [serializeColumnWithCallback, listCallback, hbs, hout]⟩
    · obtain ⟨out, hout⟩ := ih (i + 1) trig rs N henc2 (by omega) (by omega) hlt hchain hbound
      exact ⟨bs ++ out,
        by simp [serializeColumnWithCallback, if_neg hit, hbs, hout]⟩

theorem serializeColumnWithCallback_out {σ : Type}
    (encode : Field → Except DBException (List Nat)) (step : σ → Nat × σ) :
    ∀ (rows : List Field) (i trig : Nat) (s : σ),
      Except.map (fun r => r.1) (serializeColumnWithCallback encode step rows i trig s) =
        serializeColumnNoCallback encode rows := by
  intro rows
  induction rows with
  | nil => intro i trig s; rfl
  | cons f rest ih =>
    intro i trig s
    by_cases hit : i = trig
    · simp only [serializeColumnWithCallback, if_pos hit]
      cases hbs : encode f with
      | error e => simp [serializeColumnNoCallback, hbs, Except.map]
      | ok bs =>
        have hrec := ih (i + 1) (step s).1 (step s).2
        cases hr : serializeColumnWithCallback encode step rest (i + 1) (step s).1 (step s).2 with
        | error e =>
          rw [hr] at hrec
          simp only [Except.map] at hrec
          simp [serializeColumnNoCallback, hbs, ← hrec, Except.map]
        | ok r =>
          obtain ⟨out, fired, s2⟩ := r
          rw [hr] at hrec
          simp only [Except.map] at hrec
          simp [serializeColumnNoCallback, hbs, ← hrec, Except.map]
    · simp only [serializeColumnWithCallback, if_neg hit]
      cases hbs : encode f with
      | error e => simp [serializeColumnNoCallback, hbs, Except.map]
      | ok bs =>
        have hrec := ih (i + 1) trig s
        cases hr : serializeColumnWithCallback encode step rest (i + 1) trig s with
        | error e =>
          rw [hr] at hrec
          simp only [Except.map] at hrec
          simp [serializeColumnNoCallback, hbs, ← hrec, Except.map]
        | ok r =>
          obtain ⟨out, fired, s2⟩ := r
          rw [hr] at hrec
          simp only [Except.map] at hrec
          simp [serializeColumnNoCallback, hbs, ← hrec, Except.map]

theorem bulk_roundtrip_aux (encode : Field → Except DBException (List Nat))
    (decode : List Nat → Except DBException (Field × List Nat)) :
    ∀ (col acc : List Field),
      (∀ f ∈ col, ∃ bs, encode f = .ok bs ∧ bs ≠ [] ∧ ∀ r, decode (bs ++ r) = .ok (f, r)) →
      ∃ out, serializeColumnNoCallback encode col = .ok out ∧
        deserializeColumnBinary decode acc out col.length = (acc ++ col, [], none) := by
  intro col
  induction col with
  | nil => intro acc _; exact ⟨[], rfl, by simp [deserializeColumnBinary]⟩
  | cons f rest ih =>
    intro acc h
    obtain ⟨bs, hbs, hne, hdec⟩ := h f (List.mem_cons_self f rest)
    obtain ⟨out, hout, hrec⟩ := ih (acc ++ [f]) (fun g hg => h g (List.mem_cons_of_mem f hg))
    refine ⟨bs ++ out, by simp [serializeColumnNoCallback, hbs, hout], ?_⟩
    have hnil : bs ++ out ≠ [] := fun hcontra => hne (List.append_eq_nil.mp hcontra).1
    have hstep : deserializeColumnBinary decode acc (bs ++ out) (rest.length + 1) =
        deserializeColumnBinary decode (acc ++ [f]) out rest.length := by
      simp [deserializeColumnBinary, hnil, hdec]
    simp only [List.length_cons, hstep, hrec, List.append_assoc, List.singleton_append]

/-- C2: for each representative type descriptor and every column of that
type, writing the column with the bulk `serializeBinary` (no callback, the
default) and then reading the produced bytes with the bulk
`deserializeBinary` with `limit = C.size()` into an empty column produces a
column element-wise equal to the original, consuming the whole stream with
no error. -/
theorem bulk_column_roundtrip :
    (∀ col : List Field, (∀ f ∈ col, DataTypeUInt64.valid f = true) →
      ∃ out, serializeColumnBinary DataTypeUInt64.serializeBinary none col () = .ok (out, [], ()) ∧
        deserializeColumnBinary DataTypeUInt64.deserializeBinary [] out col.length =
          (col, [], none)) ∧
    (∀ col : List Field, (∀ f ∈ col, DataTypeString.valid f = true) →
      ∃ out, serializeColumnBinary DataTypeString.serializeBinary none col () = .ok (out, [], ()) ∧
        deserializeColumnBinary DataTypeString.deserializeBinary [] out col.length =
          (col, [], none)) := by
  constructor
  · intro col hval
    have h : ∀ f ∈ col, ∃ bs, DataTypeUInt64.serializeBinary f = .ok bs ∧ bs ≠ [] ∧
        ∀ r, DataTypeUInt64.deserializeBinary (bs ++ r) = .ok (f, r) := by
      intro f hf
      have hv := hval f hf
      match f with
      | .uint n =>
        have hn : n < 2 ^ 64 := by simpa [DataTypeUInt64.valid] using hv
        refine ⟨natToLE 8 n, rfl, ?_, fun r => uint64_binary_roundtrip n hn r⟩
        intro hcontra
        have := natToLE_length 8 n
        rw [hcontra] at this
        simp at this
    obtain ⟨out, hout, hrt⟩ := bulk_roundtrip_aux DataTypeUInt64.serializeBinary
      DataTypeUInt64.deserializeBinary col [] h
    refine ⟨out, by simp [serializeColumnBinary, hout], ?_⟩
    simpa using hrt
  · intro col hval
    have h : ∀ f ∈ col, ∃ bs, DataTypeString.serializeBinary f = .ok bs ∧ bs ≠ [] ∧
        ∀ r, DataTypeString.deserializeBinary (bs ++ r) = .ok (f, r) := by
      intro f hf
      have hv := hval f hf
      match f with
      | .string s =>
        have hs : s.length < 2 ^ 64 := by
          simp only [DataTypeString.valid, Bool.and_eq_true, decide_eq_true_eq] at hv
          exact hv.1
        refine ⟨natToLE 8 s.length ++ s, rfl, ?_, ?_⟩
        · intro hcontra
          have h1 := (List.append_eq_nil.mp hcontra).1
          have := natToLE_length 8 s.length
          rw [h1] at this
          simp at this
        · intro r
          have := string_binary_roundtrip s hs r
          rw [List.append_assoc] at this
          simpa [List.append_assoc] using this
    obtain ⟨out, hout, hrt⟩ := bulk_roundtrip_aux DataTypeString.serializeBinary
      DataTypeString.deserializeBinary col [] h
    refine ⟨out, by simp [serializeColumnBinary, hout], ?_⟩
    simpa using hrt

/-- C2 witness: the column round trip evaluated at the concrete two-row
UInt64 column 5, 6 and the concrete two-row String column. -/
theorem bulk_column_roundtrip_witness :
    (∃ out, serializeColumnBinary DataTypeUInt64.serializeBinary none
        [Field.uint 5, Field.uint 6] () = .ok (out, [], ()) ∧
      deserializeColumnBinary DataTypeUInt64.deserializeBinary [] out 2 =
        ([Field.uint 5, Field.uint 6], [], none)) ∧
    (∃ out, serializeColumnBinary DataTypeString.serializeBinary none
        [Field.string [7], Field.string []] () = .ok (out, [], ()) ∧
      deserializeColumnBinary DataTypeString.deserializeBinary [] out 2 =
        ([Field.string [7], Field.string []], [], none)) :=
  ⟨bulk_column_roundtrip.1 [Field.uint 5, Field.uint 6] (by decide),
   bulk_column_roundtrip.2 [Field.string [7], Field.string []] (by decide)⟩

/-- C3: during bulk `serializeBinary` with a callback, the callback fires
immediately before row 0 and thereafter exactly when the row index reaches
the index it most recently returned: for a column of length N and returned
indices 0 < i1 < i2 < ... all < N it fires at exactly rows 0, i1, i2, ... in
that order (so never after row N-1); with no callback supplied (the header's
default empty callback) the encode succeeds with no callback invocation and
the caller state untouched. -/
theorem bulk_serialize_callback_protocol :
    (∀ (encode : Field → Except DBException (List Nat)) (col : List Field) (rs : List Nat),
      (∀ f ∈ col, ∃ bs, encode f = .ok bs) →
      0 < col.length →
      List.Chain' (· < ·) (0 :: rs) →
      (∀ r ∈ rs, r < col.length) →
      ∃ out, serializeColumnBinary encode (some (listCallback col.length)) col rs =
        .ok (out, 0 :: rs, [])) ∧
    (∀ (σ : Type) (encode : Field → Except DBException (List Nat)) (col : List Field) (s : σ),
      (∀ f ∈ col, ∃ bs, encode f = .ok bs) →
      ∃ out, serializeColumnBinary encode none col s = .ok (out, [], s)) := by
  constructor
  · intro encode col rs henc hpos hchain hbound
    exact serializeColumnWithCallback_fired encode col 0 0 rs col.length henc
      (by omega) (Nat.le_refl 0) hpos hchain hbound
  · intro σ encode col s henc
    obtain ⟨out, hout⟩ := serializeColumnNoCallback_ok encode col henc
    exact ⟨out, by simp [serializeColumnBinary, hout]⟩

/-- C3 witness: a three-row UInt64 column with a callback returning index 2
fires at exactly rows 0 and 2, and the no-callback encode fires nowhere. -/
theorem bulk_serialize_callback_protocol_witness :
    (∃ out, serializeColumnBinary DataTypeUInt64.serializeBinary (some (listCallback 3))
        [Field.uint 1, Field.uint 2, Field.uint 3] [2] = .ok (out, [0, 2], [])) ∧
    (∃ out, serializeColumnBinary DataTypeUInt64.serializeBinary none
        [Field.uint 1, Field.uint 2, Field.uint 3] (0 : Nat) = .ok (out, [], 0)) :=
  ⟨bulk_serialize_callback_protocol.1 DataTypeUInt64.serializeBinary
      [Field.uint 1, Field.uint 2, Field.uint 3] [2]
      (by intro f hf; simp only [List.mem_cons, List.mem_singleton] at hf
          rcases hf with h | h | h | h <;> first | (subst h; exact ⟨_, rfl⟩) | simp at h)
      (by decide) (List.chain'_cons.mpr ⟨by omega, List.chain'_singleton 2⟩)
      (by intro r hr; simp only [List.mem_singleton] at hr; subst hr; decide),
   bulk_serialize_callback_protocol.2 Nat DataTypeUInt64.serializeBinary
      [Field.uint 1, Field.uint 2, Field.uint 3] 0
      (by intro f hf; simp only [List.mem_cons, List.mem_singleton] at hf
          rcases hf with h | h | h | h <;> first | (subst h; exact ⟨_, rfl⟩) | simp at h)⟩

/-- C8: the bulk `deserializeBinary` appends at most `limit` decoded values
to the column (as a suffix, preserving what was there and the decode order);
it appends fewer than `limit` without error only when it consumed the stream
to its end; and when it stops with an error, the remaining stream is exactly
the input on which the per-value decoder fails, so no part of the failing
row is appended while rows fully decoded before the failure remain. -/
theorem bulk_deserialize_limit :
    ∀ (decode : List Nat → Except DBException (Field × List Nat))
      (col : List Field) (input : List Nat) (limit : Nat),
      ∃ app, (deserializeColumnBinary decode col input limit).1 = col ++ app ∧
        app.length ≤ limit ∧
        ((deserializeColumnBinary decode col input limit).2.2 = none →
          app.length < limit →
          (deserializeColumnBinary decode col input limit).2.1 = []) ∧
        (∀ e, (deserializeColumnBinary decode col input limit).2.2 = some e →
          decode (deserializeColumnBinary decode col input limit).2.1 = .error e) := by
  intro decode col input limit
  induction limit generalizing col input with
  | zero =>
    refine ⟨[], by simp [deserializeColumnBinary], by simp, ?_, ?_⟩
    · intro _ h; simp at h
    · intro e he; simp [deserializeColumnBinary] at he
  | succ limit ih =>
    by_cases hi : input = []
    · subst hi
      refine ⟨[], by simp [deserializeColumnBinary], by simp, ?_, ?_⟩
      · intro _ _; simp [deserializeColumnBinary]
      · intro e he; simp [deserializeColumnBinary] at he
    · cases hdec : decode input with
      | error e =>
        refine ⟨[], ?_, by simp, ?_, ?_⟩
        · simp [deserializeColumnBinary, hi, hdec]
        · intro hnone _
          simp [deserializeColumnBinary, hi, hdec] at hnone
        · intro e2 he2
          simp only [deserializeColumnBinary, if_neg hi, hdec] at he2 ⊢
          obtain rfl := Option.some.inj he2
          rfl
      | ok fr =>
        obtain ⟨f, remaining⟩ := fr
        obtain ⟨app, h1, h2, h3, h4⟩ := ih (col ++ [f]) remaining
        have hred : deserializeColumnBinary decode col input (limit + 1) =
            deserializeColumnBinary decode (col ++ [f]) remaining limit := by
          simp [deserializeColumnBinary, hi, hdec]
        refine ⟨f :: app, ?_, by simp; omega, ?_, ?_⟩
        · rw [hred, h1]; simp
        · intro hnone hlen
          rw [hred] at hnone ⊢
          exact h3 hnone (by simp at hlen; omega)
        · intro e he
          rw [hred] at he ⊢
          exact h4 e he

/-- C8 witness: the limit contract applied at the UInt64 decoder, the empty
column, a concrete 8-byte stream and limit 5. -/
theorem bulk_deserialize_limit_witness :
    ∃ app, (deserializeColumnBinary DataTypeUInt64.deserializeBinary [] (natToLE 8 7) 5).1 =
        [] ++ app ∧
      app.length ≤ 5 ∧
      ((deserializeColumnBinary DataTypeUInt64.deserializeBinary [] (natToLE 8 7) 5).2.2 = none →
        app.length < 5 →
        (deserializeColumnBinary DataTypeUInt64.deserializeBinary [] (natToLE 8 7) 5).2.1 = []) ∧
      (∀ e, (deserializeColumnBinary DataTypeUInt64.deserializeBinary [] (natToLE 8 7) 5).2.2 =
          some e →
        DataTypeUInt64.deserializeBinary
          (deserializeColumnBinary DataTypeUInt64.deserializeBinary [] (natToLE 8 7) 5).2.1 =
            .error e) :=
  bulk_deserialize_limit DataTypeUInt64.deserializeBinary [] (natToLE 8 7) 5

/-- C9: every member function of `IDataType` is declared `const` (the
descriptor has no mutable state to touch); the serialize methods receive the
scalar value or column being serialized by reference to const, so it is left
unchanged; and in the bulk model the presence and state of the caller's
write callback never alters the bytes written to the stream. -/
theorem descriptor_stateless_frame :
    (∀ m ∈ IDataType.methods, m.isConst = true) ∧
    (∀ m ∈ IDataType.methods, ∀ p ∈ m.params,
      (p.pname = "field" ∨ p.pname = "column") →
      (m.mname = "serializeBinary" ∨ m.mname = "serializeText" ∨
        m.mname = "serializeTextEscaped" ∨ m.mname = "serializeTextQuoted") →
      p.isConstRef = true) ∧
    (∀ (σ : Type) (encode : Field → Except DBException (List Nat)) (step : σ → Nat × σ)
      (col : List Field) (i trig : Nat) (s : σ),
      Except.map (fun r => r.1) (serializeColumnWithCallback encode step col i trig s) =
        serializeColumnNoCallback encode col) := by
  refine ⟨by decide, by decide, ?_⟩
  intro σ encode step col i trig s
  exact serializeColumnWithCallback_out encode step col i trig s

theorem decimalToNat_natToDecimal (n : Nat) : decimalToNat (natToDecimal n) = n := by
  by_cases h0 : n = 0
  · subst h0; simp [natToDecimal, decimalToNat, Nat.ofDigits]
  · rw [natToDecimal, if_neg h0, decimalToNat, List.map_map]
    have hid : ∀ a ∈ (Nat.digits 10 n).reverse, ((fun b => b - 48) ∘ fun d => d + 48) a = id a := by
      intro a _; simp
    rw [List.map_congr_left hid, List.map_id, List.reverse_reverse, Nat.ofDigits_digits]

theorem natToDecimal_all_digits (n : Nat) : ∀ b ∈ natToDecimal n, isDigitByte b = true := by
  intro b hb
  by_cases h0 : n = 0
  · subst h0
    simp only [natToDecimal, if_pos] at hb
    simp only [List.mem_singleton] at hb
    subst hb; decide
  · rw [natToDecimal, if_neg h0] at hb
    simp only [List.mem_map, List.mem_reverse] at hb
    obtain ⟨d, hd, rfl⟩ := hb
    have : d < 10 := Nat.digits_lt_base (by norm_num) hd
    simp only [isDigitByte, Bool.and_eq_true, decide_eq_true_eq]
    omega

theorem natToDecimal_ne_nil (n : Nat) : natToDecimal n ≠ [] := by
  by_cases h0 : n = 0
  · subst h0; simp [natToDecimal]
  · rw [natToDecimal, if_neg h0]
    simp only [ne_eq, List.map_eq_nil_iff, List.reverse_eq_nil_iff]
    exact Nat.digits_ne_nil_iff_ne_zero.mpr h0

theorem takeWhile_append_all {α : Type} (p : α → Bool) (l1 : List α) (d : α) (l2 : List α)
    (h1 : ∀ a ∈ l1, p a = true) (hd : p d = false) :
    (l1 ++ d :: l2).takeWhile p = l1 ∧ (l1 ++ d :: l2).dropWhile p = d :: l2 := by
  induction l1 with
  | nil => simp [List.takeWhile_cons, List.dropWhile_cons, hd]
  | cons a l1 ih =>
    have ha : p a = true := h1 a (List.mem_cons_self a l1)
    obtain ⟨ht, hdr⟩ := ih (fun x hx => h1 x (List.mem_cons_of_mem a hx))
    simp [List.takeWhile_cons, List.dropWhile_cons, ha, ht, hdr]

theorem takeWhile_all_self {α : Type} (p : α → Bool) (l : List α)
    (h : ∀ a ∈ l, p a = true) :
    l.takeWhile p = l ∧ l.dropWhile p = [] := by
  induction l with
  | nil => simp
  | cons a l ih =>
    have ha : p a = true := h a (List.mem_cons_self a l)
    obtain ⟨ht, hdr⟩ := ih (fun x hx => h x (List.mem_cons_of_mem a hx))
    simp [List.takeWhile_cons, List.dropWhile_cons, ha, ht, hdr]

theorem escapeByte_ne_nil (b : Nat) : escapeByte b ≠ [] := by
  unfold escapeByte
  split_ifs <;> simp

theorem length_le_escapeBytes (s : List Nat) : s.length ≤ (escapeBytes s).length := by
  induction s with
  | nil => simp [escapeBytes]
  | cons b rest ih =>
    have hb : 0 < (escapeByte b).length := List.length_pos.mpr (escapeByte_ne_nil b)
    simp only [escapeBytes, List.length_append, List.length_cons]
    omega

theorem unescapeAux_escapeBytes (s : List Nat) :
    ∀ fuel, s.length ≤ fuel → unescapeAux fuel (escapeBytes s) = .ok (s, []) := by
  induction s with
  | nil =>
    intro fuel _
    match fuel with
    | 0 => rfl
    | fuel + 1 => rfl
  | cons b rest ih =>
    intro fuel hfuel
    simp only [List.length_cons] at hfuel
    match fuel with
    | 0 => omega
    | fuel + 1 =>
      have ihf := ih fuel (by omega)
      by_cases h9 : b = 9
      · subst h9
        simp [escapeBytes, escapeByte, unescapeAux, readEscapedStep, ihf]
      · by_cases h10 : b = 10
        · subst h10
          simp [escapeBytes, escapeByte, unescapeAux, readEscapedStep, ihf]
        · by_cases h92 : b = 92
          · subst h92
            simp [escapeBytes, escapeByte, unescapeAux, readEscapedStep, ihf]
          · simp [escapeBytes, escapeByte, h9, h10, h92, unescapeAux, readEscapedStep, ihf]

theorem unescapeBytes_escapeBytes (s : List Nat) :
    unescapeBytes (escapeBytes s) = .ok (s, []) :=
  unescapeAux_escapeBytes s (escapeBytes s).length (length_le_escapeBytes s)

theorem uint64_text_roundtrip (n : Nat) (h : n < 2 ^ 64) :
    DataTypeUInt64.deserializeText (natToDecimal n) = .ok (.uint n, []) := by
  obtain ⟨ht, hdr⟩ := takeWhile_all_self isDigitByte (natToDecimal n) (natToDecimal_all_digits n)
  rw [DataTypeUInt64.deserializeText]
  simp only [ht, hdr, if_neg (natToDecimal_ne_nil n)]
  rw [decimalToNat_natToDecimal, Nat.mod_eq_of_lt h]

/-- C6: for each representative type descriptor and every valid value —
including string values containing the designated separator and control
bytes — applying `deserializeTextEscaped` to the output of
`serializeTextEscaped` reproduces exactly the original value, with the
stream fully consumed. -/
theorem escaped_text_roundtrip :
    (∀ f, DataTypeUInt64.valid f = true →
      ∃ txt, DataTypeUInt64.serializeTextEscaped f = .ok txt ∧
        DataTypeUInt64.deserializeTextEscaped txt = .ok (f, [])) ∧
    (∀ f, DataTypeString.valid f = true →
      ∃ txt, DataTypeString.serializeTextEscaped f = .ok txt ∧
        DataTypeString.deserializeTextEscaped txt = .ok (f, [])) := by
  constructor
  · intro f hv
    match f with
    | .uint n =>
      have hn : n < 2 ^ 64 := by simpa [DataTypeUInt64.valid] using hv
      exact ⟨natToDecimal n, rfl, uint64_text_roundtrip n hn⟩
  · intro f _
    match f with
    | .string s =>
      refine ⟨escapeBytes s, rfl, ?_⟩
      rw [DataTypeString.deserializeTextEscaped, unescapeBytes_escapeBytes s]

/-- C6 witness: the escaped round trip evaluated at 42 (whose text is the
two bytes 52, 50, the literal "42") and at the string a-tab-b (bytes 97, 9,
98), whose tab must survive the trip. -/
theorem escaped_text_roundtrip_witness :
    (∃ txt, DataTypeUInt64.serializeTextEscaped (.uint 42) = .ok txt ∧
      DataTypeUInt64.deserializeTextEscaped txt = .ok (.uint 42, [])) ∧
    (∃ txt, DataTypeString.serializeTextEscaped (.string [97, 9, 98]) = .ok txt ∧
      DataTypeString.deserializeTextEscaped txt = .ok (.string [97, 9, 98], [])) :=
  ⟨escaped_text_roundtrip.1 (.uint 42) (by decide),
   escaped_text_roundtrip.2 (.string [97, 9, 98]) (by decide)⟩

theorem escapeQuotedByte_ne_nil (b : Nat) : escapeQuotedByte b ≠ [] := by
  unfold escapeQuotedByte
  split_ifs with h
  · simp
  · exact escapeByte_ne_nil b

theorem length_le_escapeQuotedBytes (s : List Nat) :
    s.length ≤ (escapeQuotedBytes s).length := by
  induction s with
  | nil => simp [escapeQuotedBytes]
  | cons b rest ih =>
    have hb : 0 < (escapeQuotedByte b).length := List.length_pos.mpr (escapeQuotedByte_ne_nil b)
    simp only [escapeQuotedBytes, List.length_append, List.length_cons]
    omega

theorem unquoteAux_escapeQuotedBytes (s : List Nat) :
    ∀ fuel, s.length + 1 ≤ fuel →
      ∀ r, unquoteAux fuel (escapeQuotedBytes s ++ 39 :: r) = .ok (s, r) := by
  induction s with
  | nil =>
    intro fuel hfuel r
    match fuel with
    | fuel + 1 => simp [escapeQuotedBytes, unquoteAux, readQuotedStep]
  | cons b rest ih =>
    intro fuel hfuel r
    simp only [List.length_cons] at hfuel
    match fuel with
    | fuel + 1 =>
      have ihf := ih fuel (by omega) r
      by_cases h39 : b = 39
      · subst h39
        simp [escapeQuotedBytes, escapeQuotedByte, escapeByte, unquoteAux, readQuotedStep, ihf]
      · by_cases h9 : b = 9
        · subst h9
          simp [escapeQuotedBytes, escapeQuotedByte, escapeByte, unquoteAux, readQuotedStep, ihf]
        · by_cases h10 : b = 10
          · subst h10
            simp [escapeQuotedBytes, escapeQuotedByte, escapeByte, unquoteAux, readQuotedStep, ihf]
          · by_cases h92 : b = 92
            · subst h92
              simp [escapeQuotedBytes, escapeQuotedByte, escapeByte, unquoteAux, readQuotedStep, ihf]
            · simp [escapeQuotedBytes, escapeQuotedByte, escapeByte, h39, h9, h10, h92,
                unquoteAux, readQuotedStep, ihf]

theorem readQuotedString_quoteBytes (s : List Nat) (r : List Nat) :
    readQuotedString (quoteBytes s ++ r) = .ok (s, r) := by
  have hshape : quoteBytes s ++ r = 39 :: (escapeQuotedBytes s ++ 39 :: r) := by
    simp [quoteBytes]
  rw [hshape, readQuotedString]
  simp only [if_pos rfl]
  apply unquoteAux_escapeQuotedBytes
  have := length_le_escapeQuotedBytes s
  simp only [List.length_append, List.length_cons]
  omega

theorem deserializeText_decimal_prefix (n : Nat) (hn : n < 2 ^ 64) (d : Nat)
    (hd : isDigitByte d = false) (r : List Nat) :
    DataTypeUInt64.deserializeText (natToDecimal n ++ d :: r) = .ok (.uint n, d :: r) := by
  obtain ⟨ht, hdr⟩ :=
    takeWhile_append_all isDigitByte (natToDecimal n) d r (natToDecimal_all_digits n) hd
  rw [DataTypeUInt64.deserializeText]
  simp only [ht, hdr, if_neg (natToDecimal_ne_nil n)]
  rw [decimalToNat_natToDecimal, Nat.mod_eq_of_lt hn]

theorem natToDecimal_cons (n : Nat) :
    ∃ d t, natToDecimal n = d :: t ∧ isDigitByte d = true := by
  cases h : natToDecimal n with
  | nil => exact absurd h (natToDecimal_ne_nil n)
  | cons d t =>
    refine ⟨d, t, rfl, natToDecimal_all_digits n d ?_⟩
    rw [h]
    exact List.mem_cons_self d t

theorem serializeArrayItems_length :
    ∀ (xs : List Field) (items : List Nat), serializeArrayItems xs = .ok items →
      xs.length ≤ items.length + 1 := by
  intro xs
  induction xs with
  | nil => intro items _; simp
  | cons f rest ih =>
    intro items hser
    cases rest with
    | nil => simp
    | cons g gs =>
      simp only [serializeArrayItems] at hser
      cases hf : DataTypeUInt64.serializeTextQuoted f false with
      | error e => rw [hf] at hser; cases hser
      | ok t =>
        cases hr : serializeArrayItems (g :: gs) with
        | error e => rw [hf, hr] at hser; cases hser
        | ok out =>
          rw [hf, hr] at hser
          obtain rfl := Except.ok.inj hser
          have := ih out hr
          simp only [List.length_cons, List.length_append] at this ⊢
          omega

theorem serializeArrayItems_ok (xs : List Field)
    (hval : ∀ f ∈ xs, DataTypeUInt64.valid f = true) :
    ∃ items, serializeArrayItems xs = .ok items := by
  induction xs with
  | nil => exact ⟨[], rfl⟩
  | cons f rest ih =>
    have hvf := hval f (List.mem_cons_self f rest)
    obtain ⟨n, rfl⟩ : ∃ n, f = .uint n := by
      cases f <;> simp [DataTypeUInt64.valid] at hvf
      exact ⟨_, rfl⟩
    obtain ⟨out, hout⟩ := ih (fun g hg => hval g (List.mem_cons_of_mem _ hg))
    cases rest with
    | nil => exact ⟨natToDecimal n, rfl⟩
    | cons g gs =>
      refine ⟨natToDecimal n ++ 44 :: out, ?_⟩
      simp only [serializeArrayItems]
      rw [show DataTypeUInt64.serializeTextQuoted (.uint n) false = .ok (natToDecimal n) from rfl,
        hout]

theorem parseArrayItemsAux_roundtrip :
    ∀ (xs : List Field) (fuel : Nat), xs ≠ [] →
      (∀ f ∈ xs, DataTypeUInt64.valid f = true) →
      xs.length ≤ fuel →
      ∀ items r, serializeArrayItems xs = .ok items →
        parseArrayItemsAux fuel (items ++ 93 :: r) = .ok (xs, r) := by
  intro xs
  induction xs with
  | nil => intro fuel hne; exact absurd rfl hne
  | cons f rest ih =>
    intro fuel _ hval hfl items r hser
    have hvf := hval f (List.mem_cons_self f rest)
    obtain ⟨n, rfl⟩ : ∃ n, f = .uint n := by
      cases f <;> simp [DataTypeUInt64.valid] at hvf
      exact ⟨_, rfl⟩
    have hn : n < 2 ^ 64 := by simpa [DataTypeUInt64.valid] using hvf
    simp only [List.length_cons] at hfl
    match fuel with
    | fuel + 1 =>
      cases rest with
      | nil =>
        have hitems : items = natToDecimal n := by
          have : serializeArrayItems [Field.uint n] = .ok (natToDecimal n) := rfl
          rw [this] at hser
          exact (Except.ok.inj hser).symm
        subst hitems
        simp only [parseArrayItemsAux, DataTypeUInt64.deserializeTextQuoted,
          deserializeText_decimal_prefix n hn 93 (by decide) r]
        simp
      | cons g gs =>
        simp only [serializeArrayItems] at hser
        cases hrec : serializeArrayItems (g :: gs) with
        | error e =>
          rw [show DataTypeUInt64.serializeTextQuoted (.uint n) false =
            .ok (natToDecimal n) from rfl, hrec] at hser
          cases hser
        | ok out =>
          rw [show DataTypeUInt64.serializeTextQuoted (.uint n) false =
            .ok (natToDecimal n) from rfl, hrec] at hser
          obtain rfl := Except.ok.inj hser
          have hshape : (natToDecimal n ++ 44 :: out) ++ 93 :: r =
              natToDecimal n ++ 44 :: (out ++ 93 :: r) := by
            simp
          rw [hshape]
          simp only [parseArrayItemsAux, DataTypeUInt64.deserializeTextQuoted,
            deserializeText_decimal_prefix n hn 44 (by decide) (out ++ 93 :: r)]
          have hih := ih fuel (by simp) (fun q hq => hval q (List.mem_cons_of_mem _ hq))
            (by simp at hfl ⊢; omega) out r hrec
          simp [hih]

theorem parseArrayBody_roundtrip (xs : List Field)
    (hval : ∀ f ∈ xs, DataTypeUInt64.valid f = true)
    (items : List Nat) (hser : serializeArrayItems xs = .ok items) (r : List Nat) :
    parseArrayBody ((91 :: items ++ [93]) ++ r) = .ok (xs, r) := by
  cases xs with
  | nil =>
    have : items = [] := (Except.ok.inj hser).symm
    subst this
    simp [parseArrayBody]
  | cons f rest =>
    obtain ⟨d, t, hdt, hdig⟩ : ∃ d t, items = d :: t ∧ isDigitByte d = true := by
      cases rest with
      | nil =>
        have hvf := hval f (List.mem_cons_self f [])
        obtain ⟨n, rfl⟩ : ∃ n, f = .uint n := by
          cases f <;> simp [DataTypeUInt64.valid] at hvf
          exact ⟨_, rfl⟩
        have : serializeArrayItems [Field.uint n] = .ok (natToDecimal n) := rfl
        rw [this] at hser
        obtain rfl := (Except.ok.inj hser).symm
        obtain ⟨d, t, hdt, hdig⟩ := natToDecimal_cons n
        exact ⟨d, t, hdt, hdig⟩
      | cons g gs =>
        have hvf := hval f (List.mem_cons_self f (g :: gs))
        obtain ⟨n, rfl⟩ : ∃ n, f = .uint n := by
          cases f <;> simp [DataTypeUInt64.valid] at hvf
          exact ⟨_, rfl⟩
        simp only [serializeArrayItems] at hser
        cases hrec : serializeArrayItems (g :: gs) with
        | error e =>
          rw [show DataTypeUInt64.serializeTextQuoted (.uint n) false =
            .ok (natToDecimal n) from rfl, hrec] at hser
          cases hser
        | ok out =>
          rw [show DataTypeUInt64.serializeTextQuoted (.uint n) false =
            .ok (natToDecimal n) from rfl, hrec] at hser
          obtain rfl := Except.ok.inj hser
          obtain ⟨d, t, hdt, hdig⟩ := natToDecimal_cons n
          exact ⟨d, t ++ 44 :: out, by rw [hdt]; simp, hdig⟩
    have hd93 : d ≠ 93 := by
      simp only [isDigitByte, Bool.and_eq_true, decide_eq_true_eq] at hdig
      omega
    have hlen : (f :: rest).length ≤ (items ++ 93 :: r).length := by
      have := serializeArrayItems_length (f :: rest) items hser
      simp only [List.length_append, List.length_cons] at this ⊢
      omega
    have hmain := parseArrayItemsAux_roundtrip (f :: rest) (items ++ 93 :: r).length
      (by simp) hval hlen items r hser
    rw [show (91 :: items ++ [93]) ++ r = 91 :: (items ++ 93 :: r) from by simp]
    rw [parseArrayBody]
    simp only [if_pos rfl]
    rw [hdt]
    simp only [List.cons_append, List.head?_cons, if_neg hd93]
    rw [← List.cons_append, ← hdt]
    exact hmain

/-- C7: for the composite representative type, `serializeTextQuoted` with
`compatible = true` writes exactly the `compatible = false` text additionally
wrapped as a quoted string literal, so that a plain-string-only consumer
(the String descriptor's quoted-text parse) recovers that text content
unchanged; with `compatible = false` (the default) no wrapping is applied —
the output begins with the opening bracket, not a quote. -/
theorem quoted_compatible_wrapping (f : Field)
    (hval : DataTypeArrayUInt64.valid f = true) :
    ∃ body, DataTypeArrayUInt64.serializeTextQuoted f false = .ok body ∧
      DataTypeArrayUInt64.serializeTextQuoted f true = .ok (quoteBytes body) ∧
      DataTypeString.deserializeTextQuoted (quoteBytes body) false = .ok (.string body, []) ∧
      body.head? = some 91 := by
  match f with
  | .array xs =>
    have hv : ∀ g ∈ xs, DataTypeUInt64.valid g = true := by
      simpa [DataTypeArrayUInt64.valid, List.all_eq_true] using hval
    obtain ⟨items, hitems⟩ := serializeArrayItems_ok xs hv
    refine ⟨91 :: items ++ [93], ?_, ?_, ?_, ?_⟩
    · simp [DataTypeArrayUInt64.serializeTextQuoted, hitems]
    · simp [DataTypeArrayUInt64.serializeTextQuoted, hitems]
    · have hq := readQuotedString_quoteBytes (91 :: items ++ [93]) []
      rw [List.append_nil] at hq
      simp only [List.cons_append] at hq
      simp [DataTypeString.deserializeTextQuoted, hq]
    · simp

/-- C7 witness: the wrapping contract evaluated at the concrete two-element
array of 1 and 2. -/
theorem quoted_compatible_wrapping_witness :
    ∃ body, DataTypeArrayUInt64.serializeTextQuoted (.array [.uint 1, .uint 2]) false =
        .ok body ∧
      DataTypeArrayUInt64.serializeTextQuoted (.array [.uint 1, .uint 2]) true =
        .ok (quoteBytes body) ∧
      DataTypeString.deserializeTextQuoted (quoteBytes body) false = .ok (.string body, []) ∧
      body.head? = some 91 :=
  quoted_compatible_wrapping (.array [.uint 1, .uint 2]) (by decide)

/-- C10: both quoted-text methods of the header carry the compatibility flag
with default argument `false` — so calling either without the flag is
calling it with `compatible = false` — and for each representative
descriptor the quoted-text round trip holds with the same flag value on the
serialize and deserialize sides, for either flag value. -/
theorem quoted_text_flag_contract :
    (∀ m ∈ IDataType.methods,
      (m.mname = "serializeTextQuoted" ∨ m.mname = "deserializeTextQuoted") →
      ∃ p ∈ m.params, p.pname = "compatible" ∧ p.defaultVal = some "false") ∧
    (∀ c : Bool,
      (∀ f, DataTypeUInt64.valid f = true →
        ∃ txt, DataTypeUInt64.serializeTextQuoted f c = .ok txt ∧
          DataTypeUInt64.deserializeTextQuoted txt c = .ok (f, [])) ∧
      (∀ f, DataTypeString.valid f = true →
        ∃ txt, DataTypeString.serializeTextQuoted f c = .ok txt ∧
          DataTypeString.deserializeTextQuoted txt c = .ok (f, [])) ∧
      (∀ f, DataTypeArrayUInt64.valid f = true →
        ∃ txt, DataTypeArrayUInt64.serializeTextQuoted f c = .ok txt ∧
          DataTypeArrayUInt64.deserializeTextQuoted txt c = .ok (f, []))) := by
  refine ⟨by decide, ?_⟩
  intro c
  refine ⟨?_, ?_, ?_⟩
  · intro f hv
    match f with
    | .uint n =>
      have hn : n < 2 ^ 64 := by simpa [DataTypeUInt64.valid] using hv
      exact ⟨natToDecimal n, rfl, uint64_text_roundtrip n hn⟩
  · intro f _
    match f with
    | .string s =>
      refine ⟨quoteBytes s, rfl, ?_⟩
      have hq := readQuotedString_quoteBytes s []
      rw [List.append_nil] at hq
      simp [DataTypeString.deserializeTextQuoted, hq]
  · intro f hv
    match f with
    | .array xs =>
      have hv2 : ∀ g ∈ xs, DataTypeUInt64.valid g = true := by
        simpa [DataTypeArrayUInt64.valid, List.all_eq_true] using hv
      obtain ⟨items, hitems⟩ := serializeArrayItems_ok xs hv2
      have hbody := parseArrayBody_roundtrip xs hv2 items hitems []
      rw [List.append_nil] at hbody
      simp only [List.cons_append] at hbody
      cases c with
      | false =>
        refine ⟨91 :: items ++ [93], ?_, ?_⟩
        · simp [DataTypeArrayUInt64.serializeTextQuoted, hitems]
        · simp [DataTypeArrayUInt64.deserializeTextQuoted, hbody]
      | true =>
        refine ⟨quoteBytes (91 :: items ++ [93]), ?_, ?_⟩
        · simp [DataTypeArrayUInt64.serializeTextQuoted, hitems]
        · have hq := readQuotedString_quoteBytes (91 :: items ++ [93]) []
          rw [List.append_nil] at hq
          simp only [List.cons_append] at hq
          simp [DataTypeArrayUInt64.deserializeTextQuoted, hq, hbody]

/-- C10 witness: the same-flag round trip evaluated at the concrete array of
7 with `compatible = true`. -/
theorem quoted_text_flag_contract_witness :
    ∃ txt, DataTypeArrayUInt64.serializeTextQuoted (.array [.uint 7]) true = .ok txt ∧
      DataTypeArrayUInt64.deserializeTextQuoted txt true = .ok (.array [.uint 7], []) :=
  (quoted_text_flag_contract.2 true).2.2 (.array [.uint 7]) (by decide)

/-- C4: the default body of `getSizeOfField` in the header fails with the
`NotImplemented` error kind for every type name — never with another kind
and never by returning a value — and that kind is distinguishable from
`TypeMismatch`, `TruncatedInput` and `MalformedEncoding`; the variable-length
String representative type keeps this default. -/
theorem getSizeOfField_default_contract :
    (∀ name, IDataType.getSizeOfFieldDefault name =
      .error { kind := .NotImplemented,
               message := "getSizeOfField() method is not implemented for data type " ++ name }) ∧
    (∀ name n, IDataType.getSizeOfFieldDefault name ≠ .ok n) ∧
    (∀ name e, IDataType.getSizeOfFieldDefault name = .error e →
      e.kind = .NotImplemented ∧ e.kind ≠ .TypeMismatch ∧
      e.kind ≠ .TruncatedInput ∧ e.kind ≠ .MalformedEncoding) ∧
    DataTypeString.getSizeOfField = IDataType.getSizeOfFieldDefault DataTypeString.getName := by
  refine ⟨fun _ => rfl, fun _ _ h => Except.noConfusion h, ?_, rfl⟩
  intro name e he
  have : e = { kind := .NotImplemented,
               message := "getSizeOfField() method is not implemented for data type " ++ name } :=
    (Except.error.inj he).symm
  subst this
  exact ⟨rfl, fun h => ErrKind.noConfusion h, fun h => ErrKind.noConfusion h,
    fun h => ErrKind.noConfusion h⟩

/-- C4 witness: the default evaluated at the concrete type name String. -/
theorem getSizeOfField_default_contract_witness :
    ({ kind := ErrKind.NotImplemented,
       message := "getSizeOfField() method is not implemented for data type " ++ "String" } :
        DBException).kind = ErrKind.NotImplemented ∧
    ({ kind := ErrKind.NotImplemented,
       message := "getSizeOfField() method is not implemented for data type " ++ "String" } :
        DBException).kind ≠ ErrKind.TypeMismatch ∧
    ({ kind := ErrKind.NotImplemented,
       message := "getSizeOfField() method is not implemented for data type " ++ "String" } :
        DBException).kind ≠ ErrKind.TruncatedInput ∧
    ({ kind := ErrKind.NotImplemented,
       message := "getSizeOfField() method is not implemented for data type " ++ "String" } :
        DBException).kind ≠ ErrKind.MalformedEncoding :=
  getSizeOfField_default_contract.2.2.1 "String"
    { kind := .NotImplemented,
      message := "getSizeOfField() method is not implemented for data type " ++ "String" } rfl

/-- C5: among the operations of the interface only `isNumeric` and
`getSizeOfField` are optional (not pure virtual, falling back to the
header's defaults, which report not-numeric and not-implemented); in
particular the default body of `isNumeric` returns `false` and cannot fail,
and the String representative type inherits it. -/
theorem isNumeric_default_contract :
    IDataType.isNumericDefault = false ∧
    (∀ m ∈ IDataType.methods, m.isPureVirtual = false →
      m.mname = "isNumeric" ∨ m.mname = "getSizeOfField") ∧
    DataTypeString.isNumeric = false :=
  ⟨rfl, by decide, rfl⟩

/-- C5 witness: the optional-operation fact applied at the `isNumeric` entry
of the table. -/
theorem isNumeric_default_contract_witness :
    ({ mname := "isNumeric", isConst := true, isPureVirtual := false,
       params := [] } : MethodSig).mname = "isNumeric" ∨
    ({ mname := "isNumeric", isConst := true, isPureVirtual := false,
       params := [] } : MethodSig).mname = "getSizeOfField" :=
  isNumeric_default_contract.2.1
    { mname := "isNumeric", isConst := true, isPureVirtual := false, params := [] }
    (by decide) rfl

/-- C9 witness: the callback non-interference fact applied at a concrete
one-row column and callback, and the constness facts applied at the first
method of the table. -/
theorem descriptor_stateless_frame_witness :
    ({ mname := "getName", isConst := true, isPureVirtual := true,
       params := [] } : MethodSig).isConst = true ∧
    Except.map (fun r => r.1)
        (serializeColumnWithCallback DataTypeUInt64.serializeBinary (listCallback 1)
          [Field.uint 3] 0 0 ([] : List Nat)) =
      serializeColumnNoCallback DataTypeUInt64.serializeBinary [Field.uint 3] :=
  ⟨descriptor_stateless_frame.1
      { mname := "getName", isConst := true, isPureVirtual := true, params := [] }
      (by decide),
   descriptor_stateless_frame.2.2 (List Nat) DataTypeUInt64.serializeBinary (listCallback 1)
     [Field.uint 3] 0 0 []⟩

end DB

